import Mathlib

/-!
# Verification of the rows_and_columns CSV analysis core

A shallow embedding, in Lean 4, of the structural-inference and statistics
engine of the `rows_and_columns` repository, together with proofs settling
the frozen claims about it.

Modelling conventions:
* Rust `&str` / `String` cell and line values are modelled as `List Char`;
  file paths and rendered TOML text are modelled as Lean `String`.
* Rust `f64` arithmetic is modelled by exact rational arithmetic (`ℚ`):
  decimal literals are given their exact rational value, and the special
  values `inf` / `infinity` / `nan` (which `f64::from_str` also accepts)
  are outside the exact-rational model.
* Rust `Vec` index assignment is modelled with `List.set` / `List.getD`;
  the indices used by the code are always in bounds.
* Rust's stable `sort_by` is modelled by `List.insertionSort`, which is a
  stable sort; for rationals the comparator
  `partial_cmp(..).unwrap_or(Equal)` coincides with `(· ≤ ·)`.
* `HashMap` accumulation (`entry(..).or_insert(0) += 1`) is modelled by an
  association list updated in insertion order, a deterministic refinement
  of the unordered map; no property proved here depends on iteration order.
-/

/-! ## Characters, whitespace and trimming (Rust `char::is_whitespace`, `str::trim`) -/

/-- The Unicode `White_Space` code points, as recognised by Rust's
`char::is_whitespace` and hence by `str::trim`. -/
def isRustWhitespace (c : Char) : Bool :=
  c.val = 0x09 || c.val = 0x0A || c.val = 0x0B || c.val = 0x0C || c.val = 0x0D ||
  c.val = 0x20 || c.val = 0x85 || c.val = 0xA0 || c.val = 0x1680 ||
  (0x2000 ≤ c.val && c.val ≤ 0x200A) ||
  c.val = 0x2028 || c.val = 0x2029 || c.val = 0x202F || c.val = 0x205F || c.val = 0x3000

/-- Rust `str::trim`: drop whitespace from both ends. -/
def trimChars (l : List Char) : List Char :=
  ((l.dropWhile isRustWhitespace).reverse.dropWhile isRustWhitespace).reverse

/-- Rust `str::split(',')` on a line: the segments between commas.
An empty input yields one empty segment, as in Rust. -/
def splitOnComma : List Char → List (List Char)
  | [] => [[]]
  | c :: rest =>
    if c = ',' then
      [] :: splitOnComma rest
    else
      match splitOnComma rest with
      | [] => [[c]]
      | f :: fs => (c :: f) :: fs

/-! ## Rust numeric literal acceptance (`str::parse::<i64>`, `str::parse::<f64>`) -/

def isAsciiDigit (c : Char) : Bool := '0' ≤ c && c ≤ '9'

/-- The numeric value of a string of ASCII digits (most significant first). -/
def digitsToNat (l : List Char) : Nat :=
  l.foldl (fun acc c => acc * 10 + (c.toNat - '0'.toNat)) 0

/-- Strip one optional leading sign; returns (isNegative, rest). -/
def stripSign : List Char → Bool × List Char
  | '+' :: rest => (false, rest)
  | '-' :: rest => (true, rest)
  | l => (false, l)

/-- Rust `str::parse::<i64>().is_ok()`: an optional sign followed by at
least one ASCII digit, with the value within the `i64` range. -/
def parsesAsI64 (s : List Char) : Bool :=
  let (neg, ds) := stripSign s
  !ds.isEmpty && ds.all isAsciiDigit &&
    (if neg then digitsToNat ds ≤ 2 ^ 63 else digitsToNat ds ≤ 2 ^ 63 - 1)

/-- The optional exponent suffix of a Rust float literal: empty, or
`e`/`E`, an optional sign, and at least one digit. -/
def parsesF64Exponent : List Char → Bool
  | [] => true
  | c :: rest =>
    (c = 'e' || c = 'E') &&
      (let (_, ds) := stripSign rest
       !ds.isEmpty && ds.all isAsciiDigit)

/-- The mantissa-with-exponent part of a Rust float literal (after the
sign): `Digit+ | Digit+ '.' Digit* | Digit* '.' Digit+`, then an optional
exponent. -/
def parsesF64Number (s : List Char) : Bool :=
  let intPart := s.takeWhile isAsciiDigit
  let rest := s.dropWhile isAsciiDigit
  match rest with
  | '.' :: t =>
    let fracPart := t.takeWhile isAsciiDigit
    let rest' := t.dropWhile isAsciiDigit
    (!intPart.isEmpty || !fracPart.isEmpty) && parsesF64Exponent rest'
  | r => !intPart.isEmpty && parsesF64Exponent r

/-- ASCII lowercasing, as needed for the case-insensitive float keywords. -/
def asciiLower (c : Char) : Char :=
  if 'A' ≤ c && c ≤ 'Z' then Char.ofNat (c.toNat + 32) else c

/-- Rust `str::parse::<f64>().is_ok()`: optional sign, then (case
insensitively) `inf`, `infinity` or `nan`, or a decimal number. -/
def parsesAsF64 (s : List Char) : Bool :=
  let (_, t) := stripSign s
  let low := t.map asciiLower
  low = [ 'i', 'n', 'f' ] || low = [ 'i', 'n', 'f', 'i', 'n', 'i', 't', 'y' ] ||
    low = [ 'n', 'a', 'n' ] || parsesF64Number t

/-- The exact rational value of a finite Rust float literal, or `none` if
the string is not accepted. `inf` / `infinity` / `nan`, though accepted by
`f64::from_str`, have no finite value and are outside this exact-rational
model of `f64`. -/
def parseF64Rat? (s : List Char) : Option ℚ :=
  let (neg, t) := stripSign s
  let intPart := t.takeWhile isAsciiDigit
  let rest := t.dropWhile isAsciiDigit
  let finish : List Char → List Char → List Char → Option ℚ :=
    fun ip fp er =>
      if ip.isEmpty && fp.isEmpty then none
      else
        match er with
        | [] =>
          let m : ℚ := (digitsToNat (ip ++ fp) : ℚ) / (10 : ℚ) ^ fp.length
          some (if neg then -m else m)
        | c :: rest' =>
          if c = 'e' || c = 'E' then
            let (negE, ds) := stripSign rest'
            if !ds.isEmpty && ds.all isAsciiDigit then
              let e : ℤ := if negE then -(digitsToNat ds : ℤ) else (digitsToNat ds : ℤ)
              let m : ℚ := (digitsToNat (ip ++ fp) : ℚ) / (10 : ℚ) ^ fp.length * (10 : ℚ) ^ e
              some (if neg then -m else m)
            else none
          else none
  match rest with
  | '.' :: t' => finish intPart (t'.takeWhile isAsciiDigit) (t'.dropWhile isAsciiDigit)
  | r => finish intPart [] r

/-! ## Line Tokenizer (`parse_csv_line`, rows_and_columns_micro) -/

/-- One step of the tokenizer's character scan: state is
(emitted fields, current field buffer, within_quotes flag). A `"` toggles
the flag (and is not appended); a `,` outside quotes emits the trimmed
buffer; any other character is appended to the buffer. -/
def parseCsvLineStep (st : List (List Char) × List Char × Bool) (ch : Char) :
    List (List Char) × List Char × Bool :=
  let (fields, current, inQuotes) := st
  if ch = '"' then (fields, current, !inQuotes)
  else if ch = ',' then
    if inQuotes then (fields, current ++ [ch], inQuotes)
    else (fields ++ [trimChars current], [], inQuotes)
  else (fields, current ++ [ch], inQuotes)

/-- At end of line the accumulated buffer is emitted as the final field. -/
def finishFields (st : List (List Char) × List Char × Bool) : List (List Char) :=
  st.1 ++ [trimChars st.2.1]

/-- `parse_csv_line` (rows_and_columns_micro): scan the characters left to
right from the empty initial state and emit the final buffer. -/
def parse_csv_line (line : List Char) : List (List Char) :=
  finishFields (line.foldl parseCsvLineStep ([], [], false))

/-- `parse_csv_line_into_fields` (rows_and_columns_module): a plain comma
split; fields are kept verbatim (the callers trim them). -/
def parse_csv_line_into_fields (line : List Char) : List (List Char) :=
  splitOnComma line

/-- The number of commas of a line encountered while the `within_quotes`
flag (toggled by each `"`) is false — the commas at which the spec says
the tokenizer splits. -/
def countUnquotedCommas : Bool → List Char → Nat
  | _, [] => 0
  | q, c :: rest =>
    if c = '"' then countUnquotedCommas (!q) rest
    else if c = ',' then
      if q then countUnquotedCommas q rest else countUnquotedCommas q rest + 1
    else countUnquotedCommas q rest

theorem finishFields_foldl_length (line : List Char) :
    ∀ (fs : List (List Char)) (cur : List Char) (q : Bool),
      (finishFields (line.foldl parseCsvLineStep (fs, cur, q))).length
        = fs.length + 1 + countUnquotedCommas q line := by
  induction line with
  | nil => intro fs cur q; simp [finishFields, countUnquotedCommas]
  | cons c rest ih =>
    intro fs cur q
    by_cases hq : c = '"'
    · simp [parseCsvLineStep, hq, countUnquotedCommas, ih]
    · by_cases hc : c = ','
      · cases q with
        | false => simp [parseCsvLineStep, hq, hc, countUnquotedCommas, ih]; omega
        | true => simp [parseCsvLineStep, hq, hc, countUnquotedCommas, ih]
      · simp [parseCsvLineStep, hq, hc, countUnquotedCommas, ih]

theorem splitOnComma_ne_nil (l : List Char) : splitOnComma l ≠ [] := by
  match l with
  | [] => simp [splitOnComma]
  | c :: rest =>
    by_cases hc : c = ','
    · simp [splitOnComma, hc]
    · simp only [splitOnComma, hc, if_false]
      match h : splitOnComma rest with
      | [] => simp
      | f :: fs => simp

theorem splitOnComma_no_comma (l : List Char) (h : ',' ∉ l) : splitOnComma l = [l] := by
  induction l with
  | nil => rfl
  | cons c rest ih =>
    have hc : ¬ c = ',' := fun hh => h (hh ▸ List.mem_cons_self c rest)
    have hrest : ',' ∉ rest := fun hh => h (List.mem_cons_of_mem c hh)
    simp only [splitOnComma, hc, if_false, ih hrest]

theorem splitOnComma_append_comma (pre rest : List Char) (h : ',' ∉ pre) :
    splitOnComma (pre ++ ',' :: rest) = pre :: splitOnComma rest := by
  induction pre with
  | nil => simp [splitOnComma]
  | cons c pre' ih =>
    have hc : ¬ c = ',' := fun hh => h (hh ▸ List.mem_cons_self c pre')
    have hpre : ',' ∉ pre' := fun hh => h (List.mem_cons_of_mem c hh)
    have hih : splitOnComma (pre' ++ ',' :: rest) = pre' :: splitOnComma rest := ih hpre
    simp only [List.cons_append, splitOnComma, hc, if_false, List.append_eq, hih]

theorem parse_csv_line_no_quotes_aux (line : List Char) :
    ∀ (fs : List (List Char)) (cur : List Char),
      '"' ∉ line → ',' ∉ cur →
      finishFields (line.foldl parseCsvLineStep (fs, cur, false))
        = fs ++ (splitOnComma (cur ++ line)).map trimChars := by
  induction line with
  | nil =>
    intro fs cur _ hcur
    simp [finishFields, splitOnComma_no_comma cur hcur]
  | cons c rest ih =>
    intro fs cur hq hcur
    have hcq : ¬ c = '"' := fun hh => hq (hh ▸ List.mem_cons_self c rest)
    have hrest : '"' ∉ rest := fun hh => hq (List.mem_cons_of_mem c hh)
    by_cases hc : c = ','
    · subst hc
      have hstep : List.foldl parseCsvLineStep (fs, cur, false) (',' :: rest)
          = List.foldl parseCsvLineStep (fs ++ [trimChars cur], [], false) rest := by
        simp [parseCsvLineStep, hcq]
      rw [hstep, ih (fs ++ [trimChars cur]) [] hrest (by simp),
        splitOnComma_append_comma cur rest hcur]
      simp
    · have hstep : List.foldl parseCsvLineStep (fs, cur, false) (c :: rest)
          = List.foldl parseCsvLineStep (fs, cur ++ [c], false) rest := by
        simp [parseCsvLineStep, hcq, hc]
      rw [hstep, ih fs (cur ++ [c]) hrest (by
        intro hmem
        rcases List.mem_append.1 hmem with h1 | h1
        · exact hcur h1
        · simp at h1; exact hc h1.symm)]
      simp

/-- C5. The Line Tokenizer emits one field per comma encountered while the
quote-toggled flag is false, plus the final buffer; an empty line yields
exactly one empty field; and on a quote-free line it agrees with a plain
split-on-comma followed by per-field trimming. -/
theorem c5_line_tokenizer :
    (∀ line : List Char,
        (parse_csv_line line).length = 1 + countUnquotedCommas false line)
    ∧ parse_csv_line [] = [[]]
    ∧ ∀ line : List Char, '"' ∉ line →
        parse_csv_line line = (splitOnComma line).map trimChars := by
  refine ⟨?_, rfl, ?_⟩
  · intro line
    have := finishFields_foldl_length line [] [] false
    simpa [parse_csv_line] using this
  · intro line hq
    have := parse_csv_line_no_quotes_aux line [] [] hq (by simp)
    simpa [parse_csv_line] using this

/-- C5 witness: on the concrete quote-free line `a ,b` the tokenizer
agrees with split-then-trim and yields `["a", "b"]`. -/
theorem c5_line_tokenizer_witness :
    parse_csv_line ('a' :: ' ' :: ',' :: 'b' :: [])
        = (splitOnComma ('a' :: ' ' :: ',' :: 'b' :: [])).map trimChars
    ∧ parse_csv_line ('a' :: ' ' :: ',' :: 'b' :: []) = [ [ 'a' ], [ 'b' ] ] :=
  ⟨c5_line_tokenizer.2.2 _ (by decide), by decide⟩

/-! ## Column data types and type detection (Type Sampler) -/

/-- `CsvColumnDataType`: the closed variant set of detectable types. -/
inductive CsvColumnDataType
  | Boolean
  | Integer
  | Float
  | String
deriving DecidableEq, Repr

/-- `is_boolean_value`: the value (trimmed, lowercased) is one of the ten
boolean literals. -/
def is_boolean_value (value : List Char) : Bool :=
  value = "true".data || value = "false".data || value = "yes".data ||
  value = "no".data || value = "1".data || value = "0".data ||
  value = "t".data || value = "f".data || value = "y".data || value = "n".data

/-- `sample_value.trim().to_lowercase()`: `to_lowercase` is modelled for
ASCII, which is all the boolean / numeric classifiers inspect. -/
def normalizeSample (sample_value : List Char) : List Char :=
  (trimChars sample_value).map asciiLower

/-- The loop body of `detect_column_data_type`: bump the (boolean,
integer, float) vote counters according to the first matching category. -/
def typeVoteStep (acc : Nat × Nat × Nat) (sample_value : List Char) : Nat × Nat × Nat :=
  let trimmed_value := normalizeSample sample_value
  if is_boolean_value trimmed_value then (acc.1 + 1, acc.2.1, acc.2.2)
  else if parsesAsI64 trimmed_value then (acc.1, acc.2.1 + 1, acc.2.2)
  else if parsesAsF64 trimmed_value then (acc.1, acc.2.1, acc.2.2 + 1)
  else acc

/-- `detect_column_data_type`: majority vote with threshold
`floor(sample_count * 7 / 10)`, checked Boolean, Integer, Float in that
order; `String` is the fallback, also for an empty sample set. -/
def detect_column_data_type (sample_values : List (List Char)) : CsvColumnDataType :=
  if sample_values.isEmpty then .String
  else
    let counts := sample_values.foldl typeVoteStep (0, 0, 0)
    let threshold := sample_values.length * 7 / 10
    if counts.1 ≥ threshold then .Boolean
    else if counts.2.1 ≥ threshold then .Integer
    else if counts.2.2 ≥ threshold then .Float
    else .String

/-- A sample votes Boolean: its trimmed lowercased form is a boolean
literal. -/
def votesBoolean (sample_value : List Char) : Bool :=
  is_boolean_value (normalizeSample sample_value)

/-- A sample votes Integer: not a boolean literal, and parses as `i64`. -/
def votesInteger (sample_value : List Char) : Bool :=
  !votesBoolean sample_value && parsesAsI64 (normalizeSample sample_value)

/-- A sample votes Float: neither boolean nor integer, and parses as
`f64`. -/
def votesFloat (sample_value : List Char) : Bool :=
  !votesBoolean sample_value && !parsesAsI64 (normalizeSample sample_value) &&
    parsesAsF64 (normalizeSample sample_value)

theorem typeVote_foldl_eq (samples : List (List Char)) :
    ∀ a b c : Nat,
      samples.foldl typeVoteStep (a, b, c)
        = (a + samples.countP votesBoolean, b + samples.countP votesInteger,
            c + samples.countP votesFloat) := by
  induction samples with
  | nil => intro a b c; simp
  | cons s rest ih =>
    intro a b c
    by_cases hb : is_boolean_value (normalizeSample s)
    · simp [typeVoteStep, hb, ih, List.countP_cons, votesBoolean, votesInteger,
        votesFloat, Nat.add_assoc, Nat.add_comm 1]
    · by_cases hi : parsesAsI64 (normalizeSample s)
      · simp [typeVoteStep, hb, hi, ih, List.countP_cons, votesBoolean, votesInteger,
          votesFloat, Nat.add_assoc, Nat.add_comm 1]
      · by_cases hf : parsesAsF64 (normalizeSample s)
        · simp [typeVoteStep, hb, hi, hf, ih, List.countP_cons, votesBoolean,
            votesInteger, votesFloat, Nat.add_assoc, Nat.add_comm 1]
        · simp [typeVoteStep, hb, hi, hf, ih, List.countP_cons, votesBoolean,
            votesInteger, votesFloat]

/-- C1. Type-detection majority rule: with threshold
`floor(sample_count * 7 / 10)` over the sampled values, the column is
typed Boolean, Integer or Float if that category's vote count reaches the
threshold (in that priority order), otherwise String; an empty sample set
yields String. In particular 10 sampled values of which 7 parse as
integers and 3 are arbitrary strings are classified Integer. -/
theorem c1_type_detection_majority :
    (∀ sample_values : List (List Char),
        detect_column_data_type sample_values =
          if sample_values.isEmpty then CsvColumnDataType.String
          else if sample_values.length * 7 / 10 ≤ sample_values.countP votesBoolean then
            CsvColumnDataType.Boolean
          else if sample_values.length * 7 / 10 ≤ sample_values.countP votesInteger then
            CsvColumnDataType.Integer
          else if sample_values.length * 7 / 10 ≤ sample_values.countP votesFloat then
            CsvColumnDataType.Float
          else CsvColumnDataType.String)
    ∧ detect_column_data_type
        ([ "2", "3", "4", "5", "6", "7", "8", "foo", "bar", "baz" ].map String.data)
        = CsvColumnDataType.Integer := by
  constructor
  · intro samples
    rw [detect_column_data_type, typeVote_foldl_eq samples 0 0 0]
    simp [ge_iff_le]
  · decide

/-! ## Header detection (Structural Scanner) -/

/-- `count_numeric_fields`: how many fields, trimmed, parse as `i64` or
`f64`. -/
def count_numeric_fields (fields : List (List Char)) : Nat :=
  fields.countP fun field =>
    parsesAsI64 (trimChars field) || parsesAsF64 (trimChars field)

/-- `detect_csv_header_row`: with no second line the file is judged to
have no header; otherwise the first line is a header exactly when it has
strictly fewer numeric fields than the second. -/
def detect_csv_header_row (second_line? : Option (List Char)) (first_line : List Char) :
    Bool :=
  match second_line? with
  | none => false
  | some second_line =>
    decide (count_numeric_fields (splitOnComma first_line) <
      count_numeric_fields (splitOnComma second_line))

/-- C4. Header detection: with at least two lines, `has_header` holds iff
line 1 has strictly fewer fields parsing as 64-bit integer or float than
line 2; with exactly one readable line it is false. -/
theorem c4_header_detection :
    (∀ first_line second_line : List Char,
        detect_csv_header_row (some second_line) first_line = true ↔
          count_numeric_fields (splitOnComma first_line) <
            count_numeric_fields (splitOnComma second_line))
    ∧ ∀ first_line : List Char, detect_csv_header_row none first_line = false := by
  refine ⟨?_, fun _ => rfl⟩
  intro l1 l2
  simp [detect_csv_header_row]

/-! ## Error taxonomy (`error_types_module`) -/

/-- `RowsAndColumnsError`. The `io::Error` payload of `FileSystemError`
is outside the model and dropped. -/
inductive RowsAndColumnsError
  | FileSystemError (operation_description : String)
  | CsvProcessingError (csv_operation_description : String)
      (csv_line_number : Option Nat) (csv_column_identifier : Option String)
  | MetadataError (metadata_operation_description : String) (metadata_file_path : String)
  | StatisticalAnalysisError (analysis_operation_description : String)
      (column_name_being_analyzed : String)
  | TuiRenderingError (tui_operation_description : String)
  | DataTypeValidationError (data_type_operation_description : String)
      (invalid_value : String) (expected_data_type : String)
  | ConfigurationError (configuration_issue_description : String)
deriving DecidableEq, Repr

def create_csv_processing_error (csv_operation_description : String)
    (csv_line_number : Option Nat) (csv_column_identifier : Option String) :
    RowsAndColumnsError :=
  .CsvProcessingError csv_operation_description csv_line_number csv_column_identifier

def create_statistical_analysis_error (analysis_operation_description : String)
    (column_name_being_analyzed : String) : RowsAndColumnsError :=
  .StatisticalAnalysisError analysis_operation_description column_name_being_analyzed

instance exceptDecidableEq {ε α : Type} [DecidableEq ε] [DecidableEq α] :
    DecidableEq (Except ε α) := fun a b =>
  match a, b with
  | .ok x, .ok y =>
    if h : x = y then .isTrue (h ▸ rfl) else .isFalse (fun hh => h (Except.ok.inj hh))
  | .error x, .error y =>
    if h : x = y then .isTrue (h ▸ rfl) else .isFalse (fun hh => h (Except.error.inj hh))
  | .ok _, .error _ => .isFalse (fun hh => Except.noConfusion hh)
  | .error _, .ok _ => .isFalse (fun hh => Except.noConfusion hh)

/-- Whether a result failed with the `StatisticalAnalysisError` kind. -/
def failedWithStatisticalAnalysisError {α : Type} :
    Except RowsAndColumnsError α → Bool
  | .error (.StatisticalAnalysisError _ _) => true
  | _ => false

/-! ## Structural Scanner (`analyze_csv_basic_structure`) -/

/-- `count_csv_columns_in_line`: a plain comma split, no quote
awareness. -/
def count_csv_columns_in_line (csv_line : List Char) : Nat :=
  (splitOnComma csv_line).length

/-- `count_remaining_csv_lines`: counts every remaining line of the
iterator — there is no blank-line check in this loop. -/
def count_remaining_csv_lines (lines : List (List Char)) : Nat :=
  lines.foldl (fun line_count _ => line_count + 1) 0

/-- `analyze_csv_basic_structure`, the file modelled as its list of
lines. Reading the second line inside `detect_csv_header_row` consumes it
from the shared lines iterator, so the subsequent
`count_remaining_csv_lines` only sees the lines after it (`rest.tail`). -/
def analyze_csv_basic_structure (lines : List (List Char)) :
    Except RowsAndColumnsError (Bool × Nat × Nat) :=
  match lines with
  | [] => .error (create_csv_processing_error "CSV file appears to be empty" (some 1) none)
  | first_line :: rest =>
    let column_count := count_csv_columns_in_line first_line
    let has_header_row := detect_csv_header_row rest.head? first_line
    let total_rows := count_remaining_csv_lines rest.tail
    let data_row_count := if has_header_row then total_rows else total_rows + 1
    .ok (has_header_row, column_count, data_row_count)

/-- C2. The Structural Scanner does NOT report `data_row_count = N` for a
header plus `N` non-blank data lines: a detected header plus one non-blank
data row yields `data_row_count = 0` (the second line is consumed by
header detection and never counted), and blank lines ARE counted (header
plus one data row plus two blank lines yields 2, not 1). -/
theorem c2_row_count_divergence :
    analyze_csv_basic_structure [ "name,age".data, "alice,30".data ]
        = .ok (true, 2, 0)
    ∧ List.countP (fun l => !(trimChars l).isEmpty) [ "alice,30".data ] = 1
    ∧ analyze_csv_basic_structure
        [ "name,age".data, "alice,30".data, "".data, "".data ]
        = .ok (true, 2, 2)
    ∧ List.countP (fun l => !(trimChars l).isEmpty)
        [ "alice,30".data, "".data, "".data ] = 1 :=
  ⟨by rfl, by decide, by rfl, by decide⟩

/-! ## Statistics Engine: numeric statistics (`calculate_numerical_statistics`) -/

/-- `NumericalColumnStatistics` over the exact-rational model of `f64`.
The source stores the standard deviation, the square root of the
variance; that square root leaves `ℚ`, so the record stores the variance
(its square); no claim concerns the standard deviation. -/
structure NumericalColumnStatistics where
  min_value : ℚ
  q1_value : ℚ
  q2_median_value : ℚ
  q3_value : ℚ
  max_value : ℚ
  mean_value : ℚ
  variance_value : ℚ
  missing_percentage : ℚ
deriving DecidableEq, Repr

/-- The interpolation body of `calculate_percentile`, taking the already
computed fractional index: floor and ceiling positions, returning the
element when they agree and otherwise interpolating linearly with the
fractional weight. -/
def interpolateAtIndex (sorted_values : List ℚ) (index : ℚ) : ℚ :=
  let lower_index := (⌊index⌋).toNat
  let upper_index := (⌈index⌉).toNat
  if lower_index = upper_index then sorted_values.getD lower_index 0
  else
    let weight := index - (lower_index : ℚ)
    sorted_values.getD lower_index 0 * (1 - weight) +
      sorted_values.getD upper_index 0 * weight

/-- `calculate_percentile`: index `(p/100)·(n−1)` into the sorted values,
linear interpolation between the floor and ceiling positions. -/
def calculate_percentile (sorted_values : List ℚ) (percentile : ℚ) : ℚ :=
  if sorted_values.isEmpty then 0
  else
    interpolateAtIndex sorted_values
      (percentile / 100 * ((sorted_values.length - 1 : ℕ) : ℚ))

/-- The collection loop of `calculate_numerical_statistics`: an empty
trimmed value, or one that fails to parse, counts as missing; parsed
values are appended in order. -/
def numericCollectStep (acc : List ℚ × Nat) (value_string : List Char) : List ℚ × Nat :=
  let trimmed_value := trimChars value_string
  if trimmed_value.isEmpty then (acc.1, acc.2 + 1)
  else
    match parseF64Rat? trimmed_value with
    | some numerical_value => (acc.1 ++ [numerical_value], acc.2)
    | none => (acc.1, acc.2 + 1)

/-- The successfully parsed numeric values of a column, in order. -/
def parsedNumericValues (column_values : List (List Char)) : List ℚ :=
  column_values.filterMap fun v =>
    if (trimChars v).isEmpty then none else parseF64Rat? (trimChars v)

/-- A collected value that contributes to the missing count: empty after
trimming, or unparseable. -/
def isMissingNumeric (v : List Char) : Bool :=
  (trimChars v).isEmpty || (parseF64Rat? (trimChars v)).isNone

/-- `calculate_numerical_statistics`: parse, count missing, fail when
nothing parsed, else sort ascending and compute the descriptive
statistics. The sort comparator `partial_cmp(..).unwrap_or(Equal)` is
`(· ≤ ·)` on the rational model. -/
def calculate_numerical_statistics (column_values : List (List Char)) :
    Except RowsAndColumnsError NumericalColumnStatistics :=
  let collected := column_values.foldl numericCollectStep ([], 0)
  let numerical_values := collected.1
  let empty_count := collected.2
  if numerical_values.isEmpty then
    .error (create_csv_processing_error
      "No valid numerical values found for statistical analysis" none none)
  else
    let sorted := numerical_values.insertionSort (· ≤ ·)
    let min_value := sorted.getD 0 0
    let max_value := sorted.getD (sorted.length - 1) 0
    let mean_value := sorted.sum / (sorted.length : ℚ)
    let q1_value := calculate_percentile sorted 25
    let q2_median_value := calculate_percentile sorted 50
    let q3_value := calculate_percentile sorted 75
    let variance_value :=
      ((sorted.map fun v => (v - mean_value) ^ 2).sum) / (sorted.length : ℚ)
    let total_values := column_values.length
    let missing_percentage :=
      if 0 < total_values then (empty_count : ℚ) / (total_values : ℚ) * 100 else 0
    .ok { min_value := min_value, q1_value := q1_value,
          q2_median_value := q2_median_value, q3_value := q3_value,
          max_value := max_value, mean_value := mean_value,
          variance_value := variance_value, missing_percentage := missing_percentage }

theorem numericCollect_foldl (column_values : List (List Char)) :
    ∀ (vs : List ℚ) (n : Nat),
      column_values.foldl numericCollectStep (vs, n)
        = (vs ++ parsedNumericValues column_values,
            n + column_values.countP isMissingNumeric) := by
  induction column_values with
  | nil => intro vs n; simp [parsedNumericValues]
  | cons v rest ih =>
    intro vs n
    by_cases he : (trimChars v).isEmpty
    · have hp : parseF64Rat? (trimChars v) = none := by
        have : trimChars v = [] := by simpa using he
        rw [this]; rfl
      simp [numericCollectStep, he, hp, ih, parsedNumericValues, isMissingNumeric,
        List.countP_cons, Nat.add_assoc, Nat.add_comm 1]
    · have he' : ¬ trimChars v = [] := by simpa using he
      cases hp : parseF64Rat? (trimChars v) with
      | some q =>
        simp [numericCollectStep, he, he', hp, ih, parsedNumericValues,
          isMissingNumeric, List.countP_cons, List.filterMap_cons]
      | none =>
        simp [numericCollectStep, he, hp, ih, parsedNumericValues, isMissingNumeric,
          List.countP_cons, Nat.add_assoc, Nat.add_comm 1]

/-- C3 counterexample: on a column whose single value parses as nothing,
the function fails with a `CsvProcessingError` carrying no line number
and no column identifier — not with a `StatisticalAnalysisError`, and no
column name is carried. -/
theorem c3_error_kind_counterexample :
    calculate_numerical_statistics [ "abc".data ]
        = .error (create_csv_processing_error
            "No valid numerical values found for statistical analysis" none none)
    ∧ failedWithStatisticalAnalysisError
        (calculate_numerical_statistics [ "abc".data ]) = false :=
  ⟨by rfl, by rfl⟩

/-- C3 (amended). With zero successfully parsed values the Statistics
Engine fails, but with a `CsvProcessingError` (message
"No valid numerical values found for statistical analysis", no line
number, no column identifier); the `StatisticalAnalysisError` kind — and
with it the column name — is never produced; with at least one parsed
value it succeeds. -/
theorem c3_zero_parse_error_amended :
    ∀ column_values : List (List Char),
      (parsedNumericValues column_values = [] →
        calculate_numerical_statistics column_values
          = .error (create_csv_processing_error
              "No valid numerical values found for statistical analysis" none none))
      ∧ (parsedNumericValues column_values ≠ [] →
          ∃ stats, calculate_numerical_statistics column_values = .ok stats)
      ∧ failedWithStatisticalAnalysisError
          (calculate_numerical_statistics column_values) = false := by
  intro column_values
  have hfold := numericCollect_foldl column_values [] 0
  by_cases hp : parsedNumericValues column_values = []
  · refine ⟨fun _ => ?_, fun hne => absurd hp hne, ?_⟩
    · rw [calculate_numerical_statistics, hfold]
      simp [hp]
    · rw [calculate_numerical_statistics, hfold]
      simp only [List.nil_append, hp, List.isEmpty_nil, if_true]
      rfl
  · refine ⟨fun h => absurd h hp, fun _ => ?_, ?_⟩
    · rw [calculate_numerical_statistics, hfold]
      simp only [List.nil_append, List.isEmpty_iff, hp, if_false]
      exact ⟨_, rfl⟩
    · rw [calculate_numerical_statistics, hfold]
      simp only [List.nil_append, List.isEmpty_iff, hp, if_false]
      rfl

/-- C3 witness: the amended theorem applied at a column of one
unparseable value (fails with the CSV-processing error) and at a column
of one parseable value (succeeds). -/
theorem c3_zero_parse_error_witness :
    calculate_numerical_statistics [ "abc".data ]
        = .error (create_csv_processing_error
            "No valid numerical values found for statistical analysis" none none)
    ∧ ∃ stats, calculate_numerical_statistics [ "2".data ] = .ok stats :=
  ⟨(c3_zero_parse_error_amended [ "abc".data ]).1 (by decide),
    (c3_zero_parse_error_amended [ "2".data ]).2.1 (by decide)⟩

theorem sorted_getD_mono (l : List ℚ) (hs : l.Sorted (· ≤ ·)) {i j : Nat}
    (hij : i ≤ j) (hj : j < l.length) : l.getD i 0 ≤ l.getD j 0 := by
  rcases Nat.eq_or_lt_of_le hij with rfl | hlt
  · exact le_refl _
  · have hi : i < l.length := lt_of_le_of_lt hij hj
    have h1 : l.get ⟨i, hi⟩ ≤ l.get ⟨j, hj⟩ := hs.rel_get_of_lt hlt
    rw [List.getD_eq_getElem l 0 hi, List.getD_eq_getElem l 0 hj]
    simpa using h1

theorem interpolateAtIndex_bounds (l : List ℚ) (hs : l.Sorted (· ≤ ·)) (hne : l ≠ [])
    (x : ℚ) (hx0 : 0 ≤ x) (hxn : x ≤ ((l.length - 1 : ℕ) : ℚ)) :
    l.getD (⌊x⌋).toNat 0 ≤ interpolateAtIndex l x ∧
      interpolateAtIndex l x ≤ l.getD (⌈x⌉).toNat 0 := by
  have hn1 : 0 < l.length := List.length_pos.mpr hne
  have hfl0 : (0 : ℤ) ≤ ⌊x⌋ := Int.floor_nonneg.mpr hx0
  have hclle : ⌈x⌉ ≤ ((l.length - 1 : ℕ) : ℤ) := Int.ceil_le.mpr (by exact_mod_cast hxn)
  have hflcl : ⌊x⌋ ≤ ⌈x⌉ := Int.floor_le_ceil x
  have hcl_lt : (⌈x⌉).toNat < l.length := by omega
  have hfl_lt : (⌊x⌋).toNat < l.length := by omega
  by_cases heq : (⌊x⌋).toNat = (⌈x⌉).toNat
  · constructor
    · simp [interpolateAtIndex, heq]
    · simp [interpolateAtIndex, heq]
  · have hkq : ((((⌊x⌋).toNat : ℕ) : ℚ)) = ((⌊x⌋ : ℤ) : ℚ) := by
      exact_mod_cast congrArg (fun z : ℤ => (z : ℚ)) (Int.toNat_of_nonneg hfl0)
    have hw0 : 0 ≤ x - (((⌊x⌋).toNat : ℕ) : ℚ) := by
      rw [hkq]; have := Int.floor_le x; linarith
    have hw1 : x - (((⌊x⌋).toNat : ℕ) : ℚ) ≤ 1 := by
      rw [hkq]
      have h1 : x ≤ ((⌈x⌉ : ℤ) : ℚ) := Int.le_ceil x
      have h2 : ⌈x⌉ ≤ ⌊x⌋ + 1 := Int.ceil_le_floor_add_one x
      have h2q : ((⌈x⌉ : ℤ) : ℚ) ≤ ((⌊x⌋ : ℤ) : ℚ) + 1 := by exact_mod_cast h2
      linarith
    have hab : l.getD (⌊x⌋).toNat 0 ≤ l.getD (⌈x⌉).toNat 0 :=
      sorted_getD_mono l hs (by omega) hcl_lt
    constructor
    · simp only [interpolateAtIndex, heq, if_false]
      nlinarith [mul_nonneg hw0 (sub_nonneg.mpr hab)]
    · simp only [interpolateAtIndex, heq, if_false]
      nlinarith [mul_nonneg (sub_nonneg.mpr hw1) (sub_nonneg.mpr hab)]

theorem interpolateAtIndex_mono (l : List ℚ) (hs : l.Sorted (· ≤ ·)) (hne : l ≠ [])
    (x y : ℚ) (hx0 : 0 ≤ x) (hxy : x ≤ y) (hyn : y ≤ ((l.length - 1 : ℕ) : ℚ)) :
    interpolateAtIndex l x ≤ interpolateAtIndex l y := by
  rcases eq_or_lt_of_le hxy with rfl | hlt
  · exact le_refl _
  have hy0 : 0 ≤ y := le_trans hx0 hxy
  have hxn : x ≤ ((l.length - 1 : ℕ) : ℚ) := le_trans hxy hyn
  have hbx := interpolateAtIndex_bounds l hs hne x hx0 hxn
  have hby := interpolateAtIndex_bounds l hs hne y hy0 hyn
  have hn1 : 0 < l.length := List.length_pos.mpr hne
  have hflx0 : (0 : ℤ) ≤ ⌊x⌋ := Int.floor_nonneg.mpr hx0
  have hfly0 : (0 : ℤ) ≤ ⌊y⌋ := Int.floor_nonneg.mpr hy0
  have hcly_le : ⌈y⌉ ≤ ((l.length - 1 : ℕ) : ℤ) := Int.ceil_le.mpr (by exact_mod_cast hyn)
  have hfly_le_cly : ⌊y⌋ ≤ ⌈y⌉ := Int.floor_le_ceil y
  have hfly_lt : (⌊y⌋).toNat < l.length := by omega
  by_cases hcase : ⌈x⌉ ≤ ⌊y⌋
  · have h1 : l.getD (⌈x⌉).toNat 0 ≤ l.getD (⌊y⌋).toNat 0 :=
      sorted_getD_mono l hs (Int.toNat_le_toNat hcase) hfly_lt
    exact le_trans hbx.2 (le_trans h1 hby.1)
  · push_neg at hcase
    have hfl_le : ⌊x⌋ ≤ ⌊y⌋ := Int.floor_mono hxy
    have hclx_le : ⌈x⌉ ≤ ⌊x⌋ + 1 := Int.ceil_le_floor_add_one x
    have hflxy : ⌊x⌋ = ⌊y⌋ := by omega
    have hclx : ⌈x⌉ = ⌊x⌋ + 1 := by omega
    have hint : ⌊y⌋ < ⌈y⌉ := by
      rcases lt_or_eq_of_le hfly_le_cly with h | h
      · exact h
      · exfalso
        have h1 : y ≤ ((⌈y⌉ : ℤ) : ℚ) := Int.le_ceil y
        have h2 : ((⌊y⌋ : ℤ) : ℚ) ≤ y := Int.floor_le y
        have h3 : ((⌊x⌋ : ℤ) : ℚ) ≤ x := Int.floor_le x
        have h4 : ((⌈y⌉ : ℤ) : ℚ) = ((⌊y⌋ : ℤ) : ℚ) := by exact_mod_cast h.symm
        have h5 : ((⌊x⌋ : ℤ) : ℚ) = ((⌊y⌋ : ℤ) : ℚ) := by exact_mod_cast hflxy
        linarith
    have hcly : ⌈y⌉ = ⌊y⌋ + 1 := by
      have := Int.ceil_le_floor_add_one y; omega
    -- both indices lie strictly inside the same unit segment [k, k+1]
    have ekx : (⌈x⌉).toNat = (⌊x⌋).toNat + 1 := by omega
    have eky : (⌊y⌋).toNat = (⌊x⌋).toNat := by omega
    have ecy : (⌈y⌉).toNat = (⌊x⌋).toNat + 1 := by omega
    have hnex : ¬ (⌊x⌋).toNat = (⌈x⌉).toNat := by omega
    have hney : ¬ (⌊y⌋).toNat = (⌈y⌉).toNat := by omega
    have hkq : ((((⌊x⌋).toNat : ℕ) : ℚ)) = ((⌊x⌋ : ℤ) : ℚ) := by
      exact_mod_cast congrArg (fun z : ℤ => (z : ℚ)) (Int.toNat_of_nonneg hflx0)
    have hcl_lt : (⌈x⌉).toNat < l.length := by
      have : ⌈x⌉ ≤ ⌈y⌉ := Int.ceil_mono hxy
      omega
    have hab : l.getD (⌊x⌋).toNat 0 ≤ l.getD ((⌊x⌋).toNat + 1) 0 :=
      sorted_getD_mono l hs (by omega) (by omega)
    have hco : ¬ (⌊x⌋).toNat = (⌊x⌋).toNat + 1 := by omega
    simp only [interpolateAtIndex, ekx, eky, ecy, hkq, if_neg hco]
    nlinarith [mul_nonneg (sub_nonneg.mpr (le_of_lt hlt)) (sub_nonneg.mpr hab)]

theorem percentile_chain (l : List ℚ) (hs : l.Sorted (· ≤ ·)) (hne : l ≠ []) :
    l.getD 0 0 ≤ calculate_percentile l 25 ∧
      calculate_percentile l 25 ≤ calculate_percentile l 50 ∧
      calculate_percentile l 50 ≤ calculate_percentile l 75 ∧
      calculate_percentile l 75 ≤ l.getD (l.length - 1) 0 := by
  have hne' : l.isEmpty = false := by simpa [List.isEmpty_iff] using hne
  have hn1 : 0 < l.length := List.length_pos.mpr hne
  have hm0 : (0 : ℚ) ≤ ((l.length - 1 : ℕ) : ℚ) := Nat.cast_nonneg _
  have h25 : calculate_percentile l 25
      = interpolateAtIndex l (25 / 100 * ((l.length - 1 : ℕ) : ℚ)) := by
    simp [calculate_percentile, hne']
  have h50 : calculate_percentile l 50
      = interpolateAtIndex l (50 / 100 * ((l.length - 1 : ℕ) : ℚ)) := by
    simp [calculate_percentile, hne']
  have h75 : calculate_percentile l 75
      = interpolateAtIndex l (75 / 100 * ((l.length - 1 : ℕ) : ℚ)) := by
    simp [calculate_percentile, hne']
  have hx1_0 : (0 : ℚ) ≤ 25 / 100 * ((l.length - 1 : ℕ) : ℚ) := by positivity
  have hx2_0 : (0 : ℚ) ≤ 50 / 100 * ((l.length - 1 : ℕ) : ℚ) := by positivity
  have hx3_0 : (0 : ℚ) ≤ 75 / 100 * ((l.length - 1 : ℕ) : ℚ) := by positivity
  have h12 : 25 / 100 * ((l.length - 1 : ℕ) : ℚ) ≤ 50 / 100 * ((l.length - 1 : ℕ) : ℚ) := by
    nlinarith
  have h23 : 50 / 100 * ((l.length - 1 : ℕ) : ℚ) ≤ 75 / 100 * ((l.length - 1 : ℕ) : ℚ) := by
    nlinarith
  have h3m : 75 / 100 * ((l.length - 1 : ℕ) : ℚ) ≤ ((l.length - 1 : ℕ) : ℚ) := by
    nlinarith
  have h1m : 25 / 100 * ((l.length - 1 : ℕ) : ℚ) ≤ ((l.length - 1 : ℕ) : ℚ) :=
    le_trans h12 (le_trans h23 h3m)
  refine ⟨?_, ?_, ?_, ?_⟩
  · rw [h25]
    have hb := interpolateAtIndex_bounds l hs hne _ hx1_0 h1m
    refine le_trans ?_ hb.1
    apply sorted_getD_mono l hs (Nat.zero_le _)
    have hc1 : ⌈25 / 100 * ((l.length - 1 : ℕ) : ℚ)⌉ ≤ ((l.length - 1 : ℕ) : ℤ) :=
      Int.ceil_le.mpr (by exact_mod_cast h1m)
    have hc2 : ⌊25 / 100 * ((l.length - 1 : ℕ) : ℚ)⌋ ≤ ⌈25 / 100 * ((l.length - 1 : ℕ) : ℚ)⌉ :=
      Int.floor_le_ceil _
    omega
  · rw [h25, h50]
    exact interpolateAtIndex_mono l hs hne _ _ hx1_0 h12 (le_trans h23 h3m)
  · rw [h50, h75]
    exact interpolateAtIndex_mono l hs hne _ _ hx2_0 h23 h3m
  · rw [h75]
    have hb := interpolateAtIndex_bounds l hs hne _ hx3_0 h3m
    refine le_trans hb.2 ?_
    have hc1 : ⌈75 / 100 * ((l.length - 1 : ℕ) : ℚ)⌉ ≤ ((l.length - 1 : ℕ) : ℤ) :=
      Int.ceil_le.mpr (by exact_mod_cast h3m)
    exact sorted_getD_mono l hs (by omega) (by omega)

/-- C6. Numeric statistics ordering invariant: whenever the Statistics
Engine succeeds on a numeric column (at least one parsed value), the
computed statistics satisfy `min ≤ q1 ≤ median ≤ q3 ≤ max`, the
percentiles being the linear-interpolation percentiles of the
ascending-sorted parsed values at p = 25, 50, 75. -/
theorem c6_numeric_ordering_invariant :
    ∀ (column_values : List (List Char)) (stats : NumericalColumnStatistics),
      calculate_numerical_statistics column_values = .ok stats →
      stats.min_value ≤ stats.q1_value ∧ stats.q1_value ≤ stats.q2_median_value ∧
        stats.q2_median_value ≤ stats.q3_value ∧ stats.q3_value ≤ stats.max_value := by
  intro values stats h
  simp only [calculate_numerical_statistics, numericCollect_foldl values [] 0,
    List.nil_append] at h
  by_cases hp : parsedNumericValues values = []
  · rw [hp] at h
    simp at h
  · rw [if_neg (by simpa [List.isEmpty_iff] using hp)] at h
    have hst := Except.ok.inj h
    subst hst
    have hs : ((parsedNumericValues values).insertionSort (· ≤ ·)).Sorted (· ≤ ·) :=
      List.sorted_insertionSort _ _
    have hlen : ((parsedNumericValues values).insertionSort (· ≤ ·)).length
        = (parsedNumericValues values).length :=
      (List.perm_insertionSort _ _).length_eq
    have hne : (parsedNumericValues values).insertionSort (· ≤ ·) ≠ [] := by
      intro hnil
      apply hp
      rw [hnil] at hlen
      exact (List.length_eq_zero.mp hlen.symm)
    have hc := percentile_chain _ hs hne
    exact ⟨hc.1, hc.2.1, hc.2.2.1, hc.2.2.2⟩

unseal Rat.mul Rat.inv Rat.add Rat.sub Rat.ofScientific in
/-- C6 witness: the column `["1", "3", "2"]` succeeds with min 1,
q1 3/2, median 2, q3 5/2, max 3, and the ordering chain holds there. -/
theorem c6_numeric_ordering_witness :
    calculate_numerical_statistics ([ "1", "3", "2" ].map String.data)
        = .ok { min_value := 1, q1_value := 3 / 2, q2_median_value := 2,
                q3_value := 5 / 2, max_value := 3, mean_value := 2,
                variance_value := 2 / 3, missing_percentage := 0 }
    ∧ ((1 : ℚ) ≤ 3 / 2 ∧ (3 / 2 : ℚ) ≤ 2 ∧ (2 : ℚ) ≤ 5 / 2 ∧ (5 / 2 : ℚ) ≤ 3) :=
  ⟨by decide, c6_numeric_ordering_invariant ([ "1", "3", "2" ].map String.data)
    { min_value := 1, q1_value := 3 / 2, q2_median_value := 2,
      q3_value := 5 / 2, max_value := 3, mean_value := 2,
      variance_value := 2 / 3, missing_percentage := 0 } (by decide)⟩

/-! ## Statistics Engine: categorical statistics -/

/-- One entry of the value-frequency table. -/
structure CategoricalValueFrequency where
  value : List Char
  count : Nat
  percentage : ℚ
deriving DecidableEq, Repr

/-- `CategoricalColumnStatistics`. -/
structure CategoricalColumnStatistics where
  unique_value_count : Nat
  value_frequencies : List CategoricalValueFrequency
  missing_percentage : ℚ
  mode_value : Option (List Char)
  mode_percentage : ℚ
deriving DecidableEq, Repr

/-- `value_counts.entry(key).or_insert(0) += 1` on the association-list
model of the `HashMap`: increment the existing entry or append a new one
with count 1. -/
def incrCount : List (List Char × Nat) → List Char → List (List Char × Nat)
  | [], k => [ (k, 1) ]
  | (k', c) :: rest, k =>
    if k' = k then (k', c + 1) :: rest else (k', c) :: incrCount rest k

/-- The counting loop of `calculate_categorical_statistics`: empty trimmed
values bump the empty counter, others their frequency entry. -/
def categoricalCountStep (acc : List (List Char × Nat) × Nat) (value_string : List Char) :
    List (List Char × Nat) × Nat :=
  let trimmed_value := trimChars value_string
  if trimmed_value.isEmpty then (acc.1, acc.2 + 1)
  else (incrCount acc.1 trimmed_value, acc.2)

/-- The descending-by-count ordering of the `sort_by` call
(`b.count.cmp(&a.count)`). -/
def freqGE (a b : CategoricalValueFrequency) : Prop := b.count ≤ a.count

instance freqGEDecidable : DecidableRel freqGE := fun a b => Nat.decLe b.count a.count

instance freqGETotal : IsTotal CategoricalValueFrequency freqGE :=
  ⟨fun a b => Nat.le_total b.count a.count⟩

instance freqGETrans : IsTrans CategoricalValueFrequency freqGE :=
  ⟨fun _ _ _ h1 h2 => le_trans h2 h1⟩

/-- The record-building closure of the frequency list: percentage is the
count over the non-empty total, times 100 (or 0 when the total is 0). -/
def toFrequencyRecord (total_non_empty_values : Nat) (vc : List Char × Nat) :
    CategoricalValueFrequency :=
  { value := vc.1, count := vc.2,
    percentage :=
      if 0 < total_non_empty_values then
        (vc.2 : ℚ) / (total_non_empty_values : ℚ) * 100
      else 0 }

/-- The body of `calculate_categorical_statistics`: count occurrences of
each distinct trimmed non-empty value, convert to percentage-carrying
frequency records, sort descending by count (a stable sort, as in Rust),
and read the mode off the head of the sorted list. -/
def calculate_categorical_statistics_core (column_values : List (List Char)) :
    CategoricalColumnStatistics :=
  let collected := column_values.foldl categoricalCountStep ([], 0)
  let value_counts := collected.1
  let empty_count := collected.2
  let total_non_empty_values := (value_counts.map (fun vc => vc.2)).sum
  let unique_value_count := value_counts.length
  let unsorted_frequencies : List CategoricalValueFrequency :=
    value_counts.map (toFrequencyRecord total_non_empty_values)
  let value_frequencies := unsorted_frequencies.insertionSort freqGE
  let mode_pair : Option (List Char) × ℚ :=
    match value_frequencies.head? with
    | some most_frequent => (some most_frequent.value, most_frequent.percentage)
    | none => (none, 0)
  let total_values := column_values.length
  let missing_percentage :=
    if 0 < total_values then (empty_count : ℚ) / (total_values : ℚ) * 100 else 0
  { unique_value_count := unique_value_count,
    value_frequencies := value_frequencies,
    missing_percentage := missing_percentage,
    mode_value := mode_pair.1,
    mode_percentage := mode_pair.2 }

/-- `calculate_categorical_statistics`: the `Result`-typed function has no
error path; it always returns `Ok`. -/
def calculate_categorical_statistics (column_values : List (List Char)) :
    Except RowsAndColumnsError CategoricalColumnStatistics :=
  .ok (calculate_categorical_statistics_core column_values)

theorem incrCount_sum (m : List (List Char × Nat)) (k : List Char) :
    ((incrCount m k).map (fun vc => vc.2)).sum = (m.map (fun vc => vc.2)).sum + 1 := by
  induction m with
  | nil => simp [incrCount]
  | cons hd rest ih =>
    obtain ⟨k', c⟩ := hd
    by_cases h : k' = k
    · simp [incrCount, h]
      omega
    · simp [incrCount, h, ih]
      omega

theorem categoricalCount_invariants (column_values : List (List Char)) :
    ∀ (m : List (List Char × Nat)) (e : Nat),
      (((column_values.foldl categoricalCountStep (m, e)).1.map (fun vc => vc.2)).sum
          + (column_values.foldl categoricalCountStep (m, e)).2
        = (m.map (fun vc => vc.2)).sum + e + column_values.length)
      ∧ (column_values.foldl categoricalCountStep (m, e)).2
          = e + column_values.countP (fun v => (trimChars v).isEmpty) := by
  induction column_values with
  | nil => intro m e; simp
  | cons v rest ih =>
    intro m e
    by_cases he : (trimChars v).isEmpty
    · have hih := ih m (e + 1)
      have hstep : categoricalCountStep (m, e) v = (m, e + 1) := by
        simp [categoricalCountStep, he]
      rw [List.foldl_cons, hstep]
      constructor
      · rw [hih.1]; simp; omega
      · rw [hih.2]; simp [he, List.countP_cons]; omega
    · have hih := ih (incrCount m (trimChars v)) e
      have hstep : categoricalCountStep (m, e) v = (incrCount m (trimChars v), e) := by
        simp [categoricalCountStep, he]
      rw [List.foldl_cons, hstep]
      constructor
      · rw [hih.1, incrCount_sum]; simp; omega
      · rw [hih.2]; simp [he, List.countP_cons]

theorem countP_trim_not_empty (values : List (List Char)) :
    values.countP (fun v => !(trimChars v).isEmpty)
      + values.countP (fun v => (trimChars v).isEmpty) = values.length := by
  induction values with
  | nil => simp
  | cons v rest ih =>
    by_cases he : (trimChars v).isEmpty <;> simp [List.countP_cons, he] <;> omega


theorem toFrequencyRecord_counts (m : List (List Char × Nat)) (t : Nat) :
    (m.map (toFrequencyRecord t)).map (fun f => f.count) = m.map (fun vc => vc.2) := by
  rw [List.map_map]; rfl

/-- C7. Categorical completeness: the counts over `value_frequencies` plus
the missing (empty) count equal the number of values collected for the
column; `value_frequencies` is sorted descending by count; and each
entry's percentage is its count over the number of non-empty values,
times 100. -/
theorem c7_categorical_completeness :
    ∀ column_values : List (List Char),
      ((((calculate_categorical_statistics_core column_values).value_frequencies.map
            (fun f => f.count)).sum
          + column_values.countP (fun v => (trimChars v).isEmpty))
        = column_values.length)
      ∧ List.Sorted freqGE
          (calculate_categorical_statistics_core column_values).value_frequencies
      ∧ ∀ f ∈ (calculate_categorical_statistics_core column_values).value_frequencies,
          f.percentage =
            (if 0 < column_values.countP (fun v => !(trimChars v).isEmpty) then
              (f.count : ℚ)
                / (column_values.countP (fun v => !(trimChars v).isEmpty) : ℚ) * 100
            else 0) := by
  intro values
  obtain ⟨hsum, hemp⟩ := categoricalCount_invariants values [] 0
  have hcnt := countP_trim_not_empty values
  have htot : ((values.foldl categoricalCountStep ([], 0)).1.map (fun vc => vc.2)).sum
      = values.countP (fun v => !(trimChars v).isEmpty) := by
    simp only [List.map_nil, List.sum_nil] at hsum
    omega
  refine ⟨?_, ?_, ?_⟩
  · simp only [calculate_categorical_statistics_core]
    rw [((List.perm_insertionSort freqGE _).map (fun f => f.count)).sum_eq,
      toFrequencyRecord_counts, htot]
    omega
  · simp only [calculate_categorical_statistics_core]
    exact List.sorted_insertionSort freqGE _
  · intro f hf
    simp only [calculate_categorical_statistics_core, List.mem_insertionSort,
      List.mem_map] at hf
    obtain ⟨vc, hvc, rfl⟩ := hf
    simp only [toFrequencyRecord, htot]

unseal Rat.mul Rat.inv Rat.add Rat.sub Rat.ofScientific in
/-- C7 witness: on the column `["a", "b", "a", ""]` the top frequency
entry (value `a`, count 2) carries percentage 200/3, i.e. 2 of 3
non-empty values, times 100. -/
theorem c7_categorical_completeness_witness :
    ({ value := [ 'a' ], count := 2, percentage := 200 / 3 } :
        CategoricalValueFrequency).percentage
      = (if 0 < ([ "a", "b", "a", "" ].map String.data).countP
            (fun v => !(trimChars v).isEmpty) then
          ((({ value := [ 'a' ], count := 2, percentage := 200 / 3 } :
              CategoricalValueFrequency).count : ℚ)
            / (([ "a", "b", "a", "" ].map String.data).countP
                (fun v => !(trimChars v).isEmpty) : ℚ) * 100)
        else 0) :=
  (c7_categorical_completeness ([ "a", "b", "a", "" ].map String.data)).2.2 _ (by decide)

theorem categoricalCount_all_empty (column_values : List (List Char)) :
    ∀ (m : List (List Char × Nat)) (e : Nat),
      (∀ v ∈ column_values, (trimChars v).isEmpty = true) →
      (column_values.foldl categoricalCountStep (m, e)).1 = m := by
  induction column_values with
  | nil => intro m e _; rfl
  | cons v rest ih =>
    intro m e hall
    have he : (trimChars v).isEmpty = true := hall v (List.mem_cons_self v rest)
    have hstep : categoricalCountStep (m, e) v = (m, e + 1) := by
      simp [categoricalCountStep, he]
    rw [List.foldl_cons, hstep]
    exact ih m (e + 1) (fun u hu => hall u (List.mem_cons_of_mem v hu))

/-- C10. Categorical statistics computation never fails: the
`Result`-typed function always returns `Ok`; and when there are no
non-empty values (in particular on an empty list, or a list of only
empty/whitespace values) the result has `unique_value_count = 0`, an
empty `value_frequencies`, no `mode_value`, and `mode_percentage = 0` —
in contrast with numeric columns, where zero parseable values is an
error. -/
theorem c10_categorical_never_fails :
    ∀ column_values : List (List Char),
      calculate_categorical_statistics column_values
          = .ok (calculate_categorical_statistics_core column_values)
      ∧ ((∀ v ∈ column_values, (trimChars v).isEmpty = true) →
          (calculate_categorical_statistics_core column_values).unique_value_count = 0
          ∧ (calculate_categorical_statistics_core column_values).value_frequencies = []
          ∧ (calculate_categorical_statistics_core column_values).mode_value = none
          ∧ (calculate_categorical_statistics_core column_values).mode_percentage = 0) := by
  intro values
  refine ⟨rfl, fun hall => ?_⟩
  have hmap : (values.foldl categoricalCountStep ([], 0)).1 = [] :=
    categoricalCount_all_empty values [] 0 hall
  refine ⟨?_, ?_, ?_, ?_⟩ <;>
    simp [calculate_categorical_statistics_core, hmap]

/-- C10 witness: the all-empty column `["", "  "]` (an empty value and a
whitespace-only value) succeeds with no unique values, an empty
frequency table, no mode, and mode percentage 0. -/
theorem c10_categorical_never_fails_witness :
    (calculate_categorical_statistics_core ([ "", "  " ].map String.data)).unique_value_count
        = 0
    ∧ (calculate_categorical_statistics_core ([ "", "  " ].map String.data)).value_frequencies
        = []
    ∧ (calculate_categorical_statistics_core ([ "", "  " ].map String.data)).mode_value
        = none
    ∧ (calculate_categorical_statistics_core ([ "", "  " ].map String.data)).mode_percentage
        = 0 :=
  (c10_categorical_never_fails ([ "", "  " ].map String.data)).2 (by decide)

/-! ## Schema Recorder (`create_or_update_metadata_file`) -/

/-- `CsvColumnInformation`: one record per detected column. -/
structure CsvColumnInformation where
  column_index : Nat
  column_name : String
  detected_data_type : CsvColumnDataType
  non_empty_value_count : Nat
  empty_value_count : Nat
  sample_values : List String
deriving DecidableEq, Repr

/-- An alias for `String` usable inside the `CsvColumnDataType`
namespace, where the bare name `String` denotes the enum's constructor. -/
abbrev TomlString := String

/-- `CsvColumnDataType::to_toml_string`: the four lowercase tags. -/
def CsvColumnDataType.to_toml_string : CsvColumnDataType → TomlString
  | .Boolean => "boolean"
  | .Integer => "integer"
  | .Float => "float"
  | .String => "string"

/-- The six lines pushed for one column section, keyed by the 1-based
column position. -/
def columnTomlLines (column_info : CsvColumnInformation) : List String :=
  [ "[column_" ++ toString (column_info.column_index + 1) ++ "]",
    "name = \"" ++ column_info.column_name ++ "\"",
    "data_type = \"" ++ column_info.detected_data_type.to_toml_string ++ "\"",
    "column_index = " ++ toString column_info.column_index,
    "non_empty_values = " ++ toString column_info.non_empty_value_count,
    "empty_values = " ++ toString column_info.empty_value_count,
    "" ]

/-- The lines of the metadata TOML document: the comment header, the
top-level `total_columns` field, and one section per column. -/
def metadataTomlLines (column_information_list : List CsvColumnInformation) :
    List String :=
  [ "# CSV Metadata File", "# Generated by rows_and_columns", "",
    "total_columns = " ++ toString column_information_list.length, "" ]
    ++ column_information_list.flatMap columnTomlLines

/-- The rendered document: every line followed by its newline. -/
def metadataTomlContent (column_information_list : List CsvColumnInformation) : String :=
  String.join ((metadataTomlLines column_information_list).map (fun l => l ++ "\n"))

/-- `create_or_update_metadata_file` over a file system modelled as a map
from path to contents. Parent-directory creation has no observable effect
on this map; the write replaces whatever was stored at the path with the
freshly rendered document — no read of the previous content occurs. -/
def create_or_update_metadata_file (fs : String → Option String)
    (metadata_file_path : String)
    (column_information_list : List CsvColumnInformation) : String → Option String :=
  fun p =>
    if p = metadata_file_path then some (metadataTomlContent column_information_list)
    else fs p

/-- C8. Schema Recorder regeneration: for every prior file-system state
the written document is the render of the column-profile list alone
(no read-modify-merge), other paths are untouched, and the rendered lines
contain the top-level `total_columns` field plus, for every column, a
section keyed `column_<1-based-index>` with `name`, `data_type` (one of
the four lowercase tags), 0-based `column_index`, `non_empty_values` and
`empty_values` fields. -/
theorem c8_schema_recorder :
    ∀ (fs : String → Option String) (metadata_file_path : String)
      (column_information_list : List CsvColumnInformation),
      (create_or_update_metadata_file fs metadata_file_path column_information_list
          metadata_file_path = some (metadataTomlContent column_information_list))
      ∧ (∀ p, p ≠ metadata_file_path →
          create_or_update_metadata_file fs metadata_file_path column_information_list p
            = fs p)
      ∧ ("total_columns = " ++ toString column_information_list.length)
          ∈ metadataTomlLines column_information_list
      ∧ ∀ c ∈ column_information_list,
          ("[column_" ++ toString (c.column_index + 1) ++ "]")
              ∈ metadataTomlLines column_information_list
          ∧ ("name = \"" ++ c.column_name ++ "\"")
              ∈ metadataTomlLines column_information_list
          ∧ ("data_type = \"" ++ c.detected_data_type.to_toml_string ++ "\"")
              ∈ metadataTomlLines column_information_list
          ∧ (c.detected_data_type.to_toml_string = "boolean"
              ∨ c.detected_data_type.to_toml_string = "integer"
              ∨ c.detected_data_type.to_toml_string = "float"
              ∨ c.detected_data_type.to_toml_string = "string")
          ∧ ("column_index = " ++ toString c.column_index)
              ∈ metadataTomlLines column_information_list
          ∧ ("non_empty_values = " ++ toString c.non_empty_value_count)
              ∈ metadataTomlLines column_information_list
          ∧ ("empty_values = " ++ toString c.empty_value_count)
              ∈ metadataTomlLines column_information_list := by
  intro fs path list
  refine ⟨by simp [create_or_update_metadata_file], fun p hp => ?_, ?_, ?_⟩
  · simp [create_or_update_metadata_file, hp]
  · simp [metadataTomlLines]
  · intro c hc
    have hmem : ∀ s ∈ columnTomlLines c, s ∈ metadataTomlLines list := by
      intro s hs
      unfold metadataTomlLines
      exact List.mem_append_right _ (List.mem_flatMap.mpr ⟨c, hc, hs⟩)
    refine ⟨hmem _ ?_, hmem _ ?_, hmem _ ?_, ?_, hmem _ ?_, hmem _ ?_, hmem _ ?_⟩
    · simp [columnTomlLines]
    · simp [columnTomlLines]
    · simp [columnTomlLines]
    · cases c.detected_data_type <;> simp [CsvColumnDataType.to_toml_string]
    · simp [columnTomlLines]
    · simp [columnTomlLines]
    · simp [columnTomlLines]

/-- C8 witness: with a single Integer column named `age` at index 0, the
rendered lines contain `[column_1]` and its `data_type = "integer"`
field, and a different path is untouched by the write. -/
theorem c8_schema_recorder_witness :
    ("[column_" ++ toString (0 + 1) ++ "]")
        ∈ metadataTomlLines
          [ { column_index := 0, column_name := "age",
              detected_data_type := .Integer, non_empty_value_count := 9,
              empty_value_count := 1, sample_values := [] } ]
    ∧ ("data_type = \""
          ++ ({ column_index := 0, column_name := "age",
                detected_data_type := .Integer, non_empty_value_count := 9,
                empty_value_count := 1,
                sample_values := [] } : CsvColumnInformation).detected_data_type.to_toml_string
          ++ "\"")
        ∈ metadataTomlLines
          [ { column_index := 0, column_name := "age",
              detected_data_type := .Integer, non_empty_value_count := 9,
              empty_value_count := 1, sample_values := [] } ]
    ∧ create_or_update_metadata_file (fun _ => none) "data.csv_metadata.toml"
        [ { column_index := 0, column_name := "age",
            detected_data_type := .Integer, non_empty_value_count := 9,
            empty_value_count := 1, sample_values := [] } ] "other.csv" = none := by
  have h := c8_schema_recorder (fun _ => none) "data.csv_metadata.toml"
    [ { column_index := 0, column_name := "age",
        detected_data_type := .Integer, non_empty_value_count := 9,
        empty_value_count := 1, sample_values := [] } ]
  exact ⟨(h.2.2.2 _ (List.mem_singleton.mpr rfl)).1,
    (h.2.2.2 _ (List.mem_singleton.mpr rfl)).2.2.1,
    h.2.1 "other.csv" (by simp)⟩

/-! ## Type Sampler and Statistics Engine row processing (C9) -/

/-- The Type Sampler's per-column accumulators
(`column_sample_values`, `column_non_empty_counts`, `column_empty_counts`,
each of length `column_count` in the pipeline). -/
structure SamplerState where
  column_sample_values : List (List (List Char))
  column_non_empty_counts : List Nat
  column_empty_counts : List Nat
deriving DecidableEq, Repr

/-- One data row of the Type Sampler loop: tokenize, enumerate the
fields, drop fields at or beyond `column_count`; an empty trimmed value
bumps the column's empty counter, a non-empty one bumps the non-empty
counter and is retained while fewer than 5 samples are stored. There is
no blank-line check: a blank line is processed like any other. -/
def sampler_process_row (column_count : Nat) (st : SamplerState)
    (csv_line : List Char) : SamplerState :=
  ((parse_csv_line_into_fields csv_line).enum).foldl
    (fun st fieldPair =>
      let column_index := fieldPair.1
      let field_value := fieldPair.2
      if column_count ≤ column_index then st
      else
        let trimmed_value := trimChars field_value
        if trimmed_value.isEmpty then
          let new_empty :=
            st.column_empty_counts.set column_index
              (st.column_empty_counts.getD column_index 0 + 1)
          { st with column_empty_counts := new_empty }
        else
          let new_non_empty :=
            st.column_non_empty_counts.set column_index
              (st.column_non_empty_counts.getD column_index 0 + 1)
          let new_samples :=
            if (st.column_sample_values.getD column_index []).length < 5 then
              st.column_sample_values.set column_index
                (st.column_sample_values.getD column_index [] ++ [trimmed_value])
            else st.column_sample_values
          { st with column_non_empty_counts := new_non_empty,
                    column_sample_values := new_samples })
    st

/-- One data row of the Statistics Engine's full collection pass: append
each trimmed field to its column's value list, dropping extra fields.
Again there is no blank-line check. -/
def collect_process_row (column_count : Nat)
    (all_column_values : List (List (List Char))) (csv_line : List Char) :
    List (List (List Char)) :=
  ((parse_csv_line_into_fields csv_line).enum).foldl
    (fun acc fieldPair =>
      if column_count ≤ fieldPair.1 then acc
      else acc.set fieldPair.1 (acc.getD fieldPair.1 [] ++ [trimChars fieldPair.2]))
    all_column_values

/-- `collect_all_column_values` over the data lines (the header, when
present, is skipped before this loop): every line is processed. -/
def collect_all_column_values (column_count : Nat)
    (data_lines : List (List Char)) : List (List (List Char)) :=
  data_lines.foldl (collect_process_row column_count)
    (List.replicate column_count [])

theorem trimChars_eq_nil_forall (l : List Char) (h : trimChars l = []) :
    ∀ c ∈ l, isRustWhitespace c = true := by
  intro c hc
  have h1 : (l.dropWhile isRustWhitespace).reverse.dropWhile isRustWhitespace = [] := by
    simpa [trimChars] using congrArg List.reverse h
  have h3 : ∀ x ∈ l.dropWhile isRustWhitespace, isRustWhitespace x := by
    intro x hx
    exact List.dropWhile_eq_nil_iff.mp h1 x (List.mem_reverse.mpr hx)
  have hsplit := List.takeWhile_append_dropWhile (p := isRustWhitespace) (l := l)
  rw [← hsplit] at hc
  rcases List.mem_append.mp hc with h4 | h4
  · exact List.mem_takeWhile_imp h4
  · exact h3 c h4

theorem getD_set_zero_ne (xs : List (List (List Char))) (x : List (List Char))
    (j : Nat) (hj : j ≠ 0) : (xs.set 0 x).getD j [] = xs.getD j [] := by
  cases xs with
  | nil => simp
  | cons a t =>
    obtain ⟨j', rfl⟩ : ∃ j', j = j' + 1 := ⟨j - 1, by omega⟩
    simp

theorem getD_set_zero_self (xs : List (List (List Char))) (x : List (List Char))
    (h : 0 < xs.length) : (xs.set 0 x).getD 0 [] = x := by
  cases xs with
  | nil => simp at h
  | cons a t => simp

/-- C9. Blank lines are not skipped by the Type Sampler or the Statistics
Engine: a line that trims to nothing tokenizes to a single empty field,
so the sampler bumps column 0's empty counter (touching nothing else) and
the collection pass appends one empty value to column 0 — growing its
missing-percentage denominator by one — while every other column is left
untouched. -/
theorem c9_blank_line_counts_for_column_zero :
    ∀ (column_count : Nat) (st : SamplerState)
      (all_column_values : List (List (List Char))) (csv_line : List Char),
      1 ≤ column_count → trimChars csv_line = [] →
      all_column_values.length = column_count →
      (sampler_process_row column_count st csv_line
          = { st with column_empty_counts :=
                st.column_empty_counts.set 0 (st.column_empty_counts.getD 0 0 + 1) })
      ∧ (collect_process_row column_count all_column_values csv_line
          = all_column_values.set 0 (all_column_values.getD 0 [] ++ [ [] ]))
      ∧ ((collect_process_row column_count all_column_values csv_line).getD 0 []).length
          = (all_column_values.getD 0 []).length + 1
      ∧ ∀ j, j ≠ 0 →
          (collect_process_row column_count all_column_values csv_line).getD j []
            = all_column_values.getD j [] := by
  intro cc st cols line hcc htrim hlen
  have hws := trimChars_eq_nil_forall line htrim
  have hnc : ',' ∉ line := by
    intro hmem
    have := hws ',' hmem
    exact absurd this (by decide)
  have hsplit : parse_csv_line_into_fields line = [ line ] :=
    splitOnComma_no_comma line hnc
  have hccz : ¬ cc ≤ 0 := by omega
  have hemp : (trimChars line).isEmpty = true := by simp [htrim]
  have hsampler : sampler_process_row cc st line
      = { st with column_empty_counts :=
            st.column_empty_counts.set 0 (st.column_empty_counts.getD 0 0 + 1) } := by
    simp [sampler_process_row, hsplit, hccz, htrim]
  have hcollect : collect_process_row cc cols line
      = cols.set 0 (cols.getD 0 [] ++ [ [] ]) := by
    simp [collect_process_row, hsplit, hccz, htrim]
  refine ⟨hsampler, hcollect, ?_, ?_⟩
  · rw [hcollect]
    have h0 : 0 < cols.length := by omega
    rw [getD_set_zero_self cols _ h0]
    simp
  · intro j hj
    rw [hcollect]
    exact getD_set_zero_ne cols _ j hj

/-- C9 witness: with two columns, processing the empty line leaves the
sample lists and non-empty counters unchanged, bumps column 0's empty
counter, and appends one empty value to column 0's collected list only. -/
theorem c9_blank_line_witness :
    sampler_process_row 2
        { column_sample_values := [ [], [] ],
          column_non_empty_counts := [ 0, 0 ],
          column_empty_counts := [ 0, 0 ] } []
      = { column_sample_values := [ [], [] ],
          column_non_empty_counts := [ 0, 0 ],
          column_empty_counts := [ 1, 0 ] }
    ∧ collect_process_row 2 [ [], [] ] [] = [ [ [] ], [] ] := by
  have h := c9_blank_line_counts_for_column_zero 2
    { column_sample_values := [ [], [] ],
      column_non_empty_counts := [ 0, 0 ],
      column_empty_counts := [ 0, 0 ] } [ [], [] ] []
    (by decide) (by decide) (by decide)
  exact ⟨h.1.trans (by decide), h.2.1.trans (by decide)⟩
